import Mathlib

/-!
Shallow embedding of the shader preprocessor in `src/preprocessor.rs` of
`wgpu_pp`.  Strings are modelled as `List Char` (the repository's inputs are
ASCII, where Rust byte indices coincide with character indices), the mutable
`HashMap`/`HashSet` state is threaded explicitly, and every loop of the Rust
code that is not obviously bounded receives a fuel parameter: `POut.nofuel`
means the fuel ran out, `POut.panicked` models a Rust panic (an out-of-bounds
byte-slice index).
-/

namespace Wgsl

/-- Mirror of `enum PreprocessorError` (src/preprocessor.rs lines 11-19). -/
inductive PreprocessorError where
  | FileNotFound : List Char → PreprocessorError
  | FileNotValidUtf8 : List Char → PreprocessorError
  | UnknownDirective : List Char → PreprocessorError
  | IncludeIncorrectArgs : PreprocessorError
  | MacroNoParenthesis : PreprocessorError
  | MacroIncorrectArgs : Nat → Nat → PreprocessorError
deriving DecidableEq, Repr

/-- Mirror of `enum DefineDirective` (lines 63-66): an object-like value or a
function-like macro with a parameter list and a body. -/
inductive DefineDirective where
  | Value : List Char → DefineDirective
  | Macro : List (List Char) → List Char → DefineDirective
deriving DecidableEq, Repr

/-- Outcome of running a piece of the preprocessor: a value, a propagated
`PreprocessorError`, a Rust panic, or fuel exhaustion (the Rust loop modelled
by the fuel did not finish within the given budget). -/
inductive POut (α : Type) where
  | ok : α → POut α
  | err : PreprocessorError → POut α
  | panicked : POut α
  | nofuel : POut α
deriving DecidableEq, Repr

/-- Sequencing that propagates `err`, `panicked` and `nofuel`, exactly like
Rust's `?` operator extended with panics and the fuel artifact. -/
def POut.bind {α β : Type} : POut α → (α → POut β) → POut β
  | .ok a, f => f a
  | .err e, _ => .err e
  | .panicked, _ => .panicked
  | .nofuel, _ => .nofuel

/-- ASCII restriction of the `XID_Start` class used by `REGEX_ID` (line 22).
All inputs relevant to the claims are ASCII, where `XID_Start` is exactly the
letters. -/
def isIdStart (c : Char) : Bool := c.isAlpha

/-- ASCII restriction of `XID_Continue`: letters, digits and underscore. -/
def isIdCont (c : Char) : Bool := c.isAlpha || c.isDigit || c == '_'

/-- The character class `[_\p{XID_Start}]` opening the first alternative of
`REGEX_ID`. -/
def isIdBegin (c : Char) : Bool := c == '_' || isIdStart c

/-- Length of the match of `REGEX_ID` anchored at the head of `cs`, if any:
the first alternative `[_\p{XID_Start}][\p{XID_Continue}]+` is greedy and
needs at least two characters; the fallback `[\p{XID_Start}]` is one
character (so a lone underscore does not match). -/
def idMatchLen (cs : List Char) : Option Nat :=
  match cs with
  | [] => none
  | c :: rest =>
    if isIdBegin c && (match rest with | c2 :: _ => isIdCont c2 | [] => false) then
      some (1 + (rest.takeWhile isIdCont).length)
    else if isIdStart c then some 1
    else none

/-- `REGEX_ID.find`: the leftmost match in `cs`, returned as
(start index, length). -/
def findIdFrom : List Char → Option (Nat × Nat)
  | [] => none
  | c :: rest =>
    match idMatchLen (c :: rest) with
    | some len => some (0, len)
    | none => (findIdFrom rest).map (fun p => (p.1 + 1, p.2))

/-- Rust's `&s[a..b]` on byte indices, as characters. -/
def sliceList (cs : List Char) (a b : Nat) : List Char := (cs.drop a).take (b - a)

/-- Rust's `String::replace_range(a..b, v)`. -/
def replace_range (cs : List Char) (a b : Nat) (v : List Char) : List Char :=
  cs.take a ++ v ++ cs.drop b

/-- Rust's `str::trim`. -/
def trimList (cs : List Char) : List Char :=
  ((cs.dropWhile Char.isWhitespace).reverse.dropWhile Char.isWhitespace).reverse

/-- The macro table: `HashMap<String, DefineDirective>` modelled as an
association list where an insert prepends, so that lookup (first match) sees
the most recent insert, exactly like `HashMap::insert` overwriting. -/
abbrev MacroTable := List (List Char × DefineDirective)

/-- `HashMap::get`. -/
def tableGet (t : MacroTable) (k : List Char) : Option DefineDirective :=
  (t.find? (fun p => p.1 == k)).map Prod.snd

/-- `HashMap::insert` (overwrites an existing binding). -/
def tableInsert (t : MacroTable) (k : List Char) (v : DefineDirective) : MacroTable :=
  (k, v) :: t

/-- `HashMap::remove`. -/
def tableRemove (t : MacroTable) (k : List Char) : MacroTable :=
  t.filter (fun p => p.1 != k)

/-- The closing-parenthesis scan of `_substitute_macros` (lines 97-118): walk
`cs` (the suffix of the line starting at the absolute index `idx`), counting
`(`/`{` up and `)`/`}` down, recording top-level commas, and stopping on the
`)`/`}` that brings the count to zero.  Returns the final scan index, the
final count (zero exactly when a closer was found) and the comma indices. -/
def scanParensAux : List Char → Nat → Int → List Nat → (Nat × Int × List Nat)
  | [], idx, count, commas => (idx, count, commas)
  | c :: rest, idx, count, commas =>
    if c == '(' || c == '\x7b' then scanParensAux rest (idx + 1) (count + 1) commas
    else if c == ')' || c == '\x7d' then
      if count == 1 then (idx, 0, commas)
      else scanParensAux rest (idx + 1) (count - 1) commas
    else if c == ',' && count == 1 then scanParensAux rest (idx + 1) count (commas ++ [idx])
    else scanParensAux rest (idx + 1) count commas

/-- The argument splitting of `_substitute_macros` (lines 126-135): cut the
invocation span at the recorded top-level commas and trim each piece. -/
def splitArgs (cs : List Char) : Nat → List Nat → Nat → List (List Char)
  | argStart, [], parenIdx => [trimList (sliceList cs argStart parenIdx)]
  | argStart, comma :: rest, parenIdx =>
    trimList (sliceList cs argStart comma) :: splitArgs cs (comma + 1) rest parenIdx

mutual

/-- The scanning loop of `_substitute_macros` (lines 76-172).  `i` is the scan
position; one unit of fuel is spent per loop iteration and per recursive
sub-expansion.  Exits without fuel when the position is past the end or no
identifier remains, mirroring the Rust loop's exits. -/
def substGo (defines : MacroTable) (fuel : Nat) (result : List Char) (i : Nat) :
    POut (List Char) :=
  if _h : i < result.length then
    match findIdFrom (result.drop i) with
    | none => .ok result
    | some (s, len) =>
      match fuel with
      | 0 => .nofuel
      | fuel' + 1 =>
        let idStart := i + s
        let idEnd := idStart + len
        let id := sliceList result idStart idEnd
        match tableGet defines id with
        | some (.Value v) =>
          substGo defines fuel' (replace_range result idStart idEnd v) (i + len)
        | some (.Macro params _body) =>
          -- `&result[id_end..id_end + 1]` (line 91) panics when `id_end` is
          -- the end of the line.
          match result.get? idEnd with
          | none => .panicked
          | some cNext =>
            if cNext != '(' then substGo defines fuel' result (i + len)
            else
              match scanParensAux (result.drop idEnd) idEnd 0 [] with
              | (parenIdx, count, commas) =>
                if count != 0 then .err .MacroNoParenthesis
                else
                  let argValues := splitArgs result (idEnd + 1) commas parenIdx
                  if argValues.length != params.length then
                    .err (.MacroIncorrectArgs params.length argValues.length)
                  else
                    (buildArgDefines defines fuel' (params.zip argValues) []).bind
                      fun argDefines =>
                        (substGo argDefines fuel' _body 0).bind fun newBody =>
                          substGo defines fuel'
                            (replace_range result idStart (parenIdx + 1) newBody) (i + len)
        | none => substGo defines fuel' result (i + len)
  else .ok result

/-- The argument pre-expansion loop of `_substitute_macros` (lines 146-158):
each argument is substituted against the enclosing table; an `Err` from that
sub-expansion is swallowed (`or_else`) and the raw argument text bound
instead, while a panic propagates. -/
def buildArgDefines (defines : MacroTable) (fuel : Nat) :
    List (List Char × List Char) → MacroTable → POut MacroTable
  | [], acc => .ok acc
  | (name, value) :: rest, acc =>
    match fuel with
    | 0 => .nofuel
    | fuel' + 1 =>
      match substGo defines fuel' value 0 with
      | .ok v => buildArgDefines defines fuel' rest (tableInsert acc name (.Value v))
      | .err _ => buildArgDefines defines fuel' rest (tableInsert acc name (.Value value))
      | .panicked => .panicked
      | .nofuel => .nofuel

end

/-- `_substitute_macros` itself: run the scan from position 0 and report
whether the line changed (`result != line`, line 174). -/
def substitute_macros (fuel : Nat) (line : List Char) (defines : MacroTable) :
    POut (Bool × List Char) :=
  (substGo defines fuel line 0).bind fun r => .ok (r != line, r)

/-- The per-line fixpoint rescan loop of `_preprocess` (lines 300-308):
substitute until no change is reported.  The Rust loop is unbounded, so fuel
is spent on each pass. -/
def subst_fixpoint (defines : MacroTable) : Nat → List Char → POut (List Char)
  | 0, _ => .nofuel
  | fuel + 1, line =>
    match substitute_macros (fuel + 1) line defines with
    | .ok (changed, newLine) =>
      if changed then subst_fixpoint defines fuel newLine else .ok newLine
    | .err e => .err e
    | .panicked => .panicked
    | .nofuel => .nofuel

/-- Leftmost occurrence of `pat` as a contiguous sublist of `cs`
(Rust's `str::find(pat)`). -/
def findSub (pat : List Char) : List Char → Option Nat
  | [] => if pat.isEmpty then some 0 else none
  | c :: rest =>
    if pat.isPrefixOf (c :: rest) then some 0
    else (findSub pat rest).map (· + 1)

/-- Rust's `str::contains(pat)`. -/
def hasSub (pat cs : List Char) : Bool := (findSub pat cs).isSome

/-- The leftmost match of `REGEX_BLOCK_COMMENT` (`/\*.*?\*/`, line 32) in
`cs`, as (start, end-exclusive).  The leftmost `/*` is the match start
exactly when some `*/` begins at least two characters later; the non-greedy
tail picks the first such `*/`. -/
def findBlockComment (cs : List Char) : Option (Nat × Nat) :=
  match findSub ['/', '*'] cs with
  | none => none
  | some s =>
    match findSub ['*', '/'] (cs.drop (s + 2)) with
    | none => none
    | some k => some (s, s + 2 + k + 2)

/-- The `while let Some(..) = REGEX_BLOCK_COMMENT.find(line)` loop of
`_remove_comments` (lines 47-49).  Every iteration removes at least four
characters, so `cs.length + 1` rounds of fuel always reach the fixpoint;
the wrapper below supplies exactly that. -/
def stripBlocksFuel : Nat → List Char → List Char
  | 0, cs => cs
  | fuel + 1, cs =>
    match findBlockComment cs with
    | none => cs
    | some (s, e) => stripBlocksFuel fuel (replace_range cs s e [])

/-- Removal of all complete `/* ... */` spans from a line. -/
def stripBlocks (cs : List Char) : List Char := stripBlocksFuel (cs.length + 1) cs

/-- `_remove_comments` (lines 35-61): given the line and whether the previous
line left us inside a block comment, return the stripped line and the updated
block-comment state.  Note the early `return false` on line 54: when a `//`
is found the hanging-`/*` check on line 57 is never reached. -/
def remove_comments (line : List Char) (in_block_comment : Bool) : List Char × Bool :=
  let step1 : Option (List Char) :=
    if in_block_comment then
      match findSub ['*', '/'] line with
      | some closing => some (line.drop (closing + 2))
      | none => none
    else some line
  match step1 with
  | none => (line, true)
  | some l1 =>
    let l2 := stripBlocks l1
    match findSub ['/', '/'] l2 with
    | some idx => (l2.take idx, false)
    | none => (l2, hasSub ['/', '*'] l2)

/-!  Directive parsing (`_preprocess`, lines 232-298). -/

/-- `directive_line.split(' ').filter(|arg| !arg.trim().is_empty())`
(lines 236-239): split on single spaces and drop whitespace-only pieces. -/
def directive_tokens (dl : List Char) : List (List Char) :=
  (dl.splitOn ' ').filter (fun t => !t.all Char.isWhitespace)

/-- The wrapping test of `#include`'s path argument (lines 246-248):
starts and ends with `"`, or starts with `<` and ends with `>`.  A
single-character token `"` passes both sides of the first disjunct. -/
def include_path_wrapped (dest : List Char) : Bool :=
  (dest.head? == some '"' && dest.getLast? == some '"') ||
  (dest.head? == some '<' && dest.getLast? == some '>')

/-- State machine for the parameter-list group
`((?:[_\p{XID_Start}][\p{XID_Continue}]*(?:,\s*)*)+)` of
`REGEX_DEFINE_MACRO` (line 29), entered after its first identifier
character: consume identifier-continue runs, commas, and whitespace directly
after a comma; stop (returning the count of consumed characters and the rest)
at any other character.  Greedy consumption is equivalent to the regex here
because no character this machine stops at can start another unit of the
group or the closing `\)`. -/
def paramsScan : List Char → Bool → Nat → (Nat × List Char)
  | [], _, n => (n, [])
  | c :: rest, false, n =>
    -- inside an identifier run
    if isIdCont c then paramsScan rest false (n + 1)
    else if c == ',' then paramsScan rest true (n + 1)
    else (n, c :: rest)
  | c :: rest, true, n =>
    -- just after a comma: `\s*`, or the next unit
    if c.isWhitespace then paramsScan rest true (n + 1)
    else if c == ',' then paramsScan rest true (n + 1)
    else if isIdBegin c then paramsScan rest false (n + 1)
    else (n, c :: rest)

/-- `REGEX_DEFINE_MACRO` anchored at the head of `cs`: an identifier (per
`REGEX_ID`'s alternation), directly `(`, the parameter-list group, `)`,
at least one whitespace, then the rest of the line as the body.  Returns
(name, raw parameter text, body). -/
def parseMacroAt (cs : List Char) : Option (List Char × List Char × List Char) :=
  match idMatchLen cs with
  | none => none
  | some n =>
    match cs.drop n with
    | '(' :: r2 =>
      match r2 with
      | c :: _ =>
        if isIdBegin c then
          match paramsScan r2 false 0 with
          | (k, r3) =>
            match r3 with
            | ')' :: r4 =>
              let wsLen := (r4.takeWhile Char.isWhitespace).length
              if wsLen == 0 then none
              else some (cs.take n, r2.take k, r4.drop wsLen)
            | _ => none
        else none
      | [] => none
    | _ => none

/-- `REGEX_DEFINE_MACRO.captures(directive_line)`: the leftmost position at
which the pattern matches. -/
def findMacroDef : List Char → Option (List Char × List Char × List Char)
  | [] => none
  | c :: rest =>
    match parseMacroAt (c :: rest) with
    | some r => some r
    | none => findMacroDef rest

/-- What a directive line tells `_preprocess` to do (the dispatch on
`directive_args[0]`, lines 241-294), extracted as data so the recursive
include interpreter below can stay a single function. -/
inductive DirectiveAction where
  | NoDirective : DirectiveAction
  | ErrAct : PreprocessorError → DirectiveAction
  | PanicAct : DirectiveAction
  | IncludeAct : Nat → List Char → DirectiveAction
  | DefineAct : Nat → List Char → DefineDirective → DirectiveAction
  | UndefAct : Nat → List Char → DirectiveAction
deriving DecidableEq, Repr

/-- Directive recognition on a comment-stripped logical line: find the first
`#` anywhere in the line (line 232), split the suffix into tokens, and
dispatch exactly as lines 241-294 do.  `IncludeAct`/`DefineAct`/`UndefAct`
carry the `#` index so the caller can replace `line[idx..]` with the
directive's produced content. -/
def parse_directive (line : List Char) : DirectiveAction :=
  match line.findIdx? (fun c => c == '#') with
  | none => .NoDirective
  | some directive_idx =>
    let directive_line := line.drop directive_idx
    let args := directive_tokens directive_line
    match args with
    | [] => .PanicAct  -- unreachable: the first token contains the `#`
    | a0 :: _ =>
      if a0 == "#include".data then
        if args.length != 2 then .ErrAct .IncludeIncorrectArgs
        else
          match args.get? 1 with
          | none => .PanicAct
          | some dest =>
            if include_path_wrapped dest then
              -- `&dest_path[1..dest_path.len() - 1]` (line 252) panics for a
              -- one-character token (slice starts at 1, ends at 0).
              if dest.length == 1 then .PanicAct
              else .IncludeAct directive_idx (sliceList dest 1 (dest.length - 1))
            else .ErrAct .IncludeIncorrectArgs
      else if a0 == "#define".data then
        if args.length < 3 then .ErrAct .IncludeIncorrectArgs
        else
          match findMacroDef directive_line with
          | some (name, paramsText, body) =>
            .DefineAct directive_idx name
              (.Macro ((paramsText.splitOn ',').map trimList) body)
          | none =>
            match args with
            | _ :: name :: restArgs =>
              .DefineAct directive_idx name (.Value (List.intercalate [' '] restArgs))
            | _ => .PanicAct  -- unreachable: args.length ≥ 3
      else if a0 == "#undef".data then
        if args.length != 2 then .ErrAct .IncludeIncorrectArgs
        else
          match args.get? 1 with
          | some name => .UndefAct directive_idx name
          | none => .PanicAct
      else .ErrAct (.UnknownDirective a0)

/-!  The recursive include interpreter (`_preprocess`, lines 177-318). -/

/-- A file path: the component list of `basepath.join(filename)`.
`PathBuf::join` with the single-component relative filenames the claims use
is list append; `Path::parent` is `dropLast`.  No canonicalization is
performed anywhere in the source. -/
abbrev FilePath' := List (List Char)

/-- The file system seen by `_preprocess`: a finite map from paths to the
file's physical lines (`BufReader::lines`). -/
abbrev FileSys := List (FilePath' × List (List Char))

def fsLookup (fs : FileSys) (p : FilePath') : Option (List (List Char)) :=
  (fs.find? (fun e => e.1 == p)).map Prod.snd

/-- The backslash-continuation joining loop (lines 215-222): while the line
ends in `\`, drop the backslash and append the next physical line. -/
def join_continuations : List Char → List (List Char) → (List Char × List (List Char))
  | line, rest =>
    if line.getLast? == some '\\' then
      match rest with
      | [] => (line.dropLast, [])
      | nxt :: rest' => join_continuations (line.dropLast ++ nxt) rest'
    else (line, rest)

/-- One call frame of the interpreter: entering a file (`_preprocess`'s
prologue, lines 185-205) or the line loop (lines 206-315) with its mutable
state (remaining lines, block-comment flag, accumulated output, visited set,
macro table). -/
inductive PrepCall where
  | file : List Char → FilePath' → List FilePath' → MacroTable → PrepCall
  | lines : FilePath' → List (List Char) → Bool → List Char → List FilePath' →
      MacroTable → PrepCall

/-- The whole recursive `_preprocess` traversal, fuelled: one unit per file
entered and per logical line processed (the Rust recursion is bounded only by
the visited set and the line loop by the file length, but the macro fixpoint
inside a line is unbounded, and fuel threads uniformly through it all).
Returns the produced text together with the final visited set and macro
table. -/
def prepRun (fs : FileSys) : Nat → PrepCall → POut (List Char × List FilePath' × MacroTable)
  | 0, _ => .nofuel
  | fuel + 1, .file filename basepath visited defines =>
    let source_path := basepath ++ [filename]
    if visited.contains source_path then .ok ([], visited, defines)
    else
      match fsLookup fs source_path with
      | none => .err (.FileNotFound filename)
      | some ls =>
        prepRun fs fuel (.lines source_path.dropLast ls false [] (source_path :: visited) defines)
  | _fuel + 1, .lines _parent [] _inb acc visited defines => .ok (acc, visited, defines)
  | fuel + 1, .lines parent (l :: rest) inb acc visited defines =>
    match join_continuations l rest with
    | (line0, rest') =>
      match remove_comments line0 inb with
      | (_line1, true) => prepRun fs fuel (.lines parent rest' true acc visited defines)
      | (line1, false) =>
        let afterDirective : POut (List Char × List FilePath' × MacroTable) :=
          match parse_directive line1 with
          | .NoDirective => .ok (line1, visited, defines)
          | .ErrAct e => .err e
          | .PanicAct => .panicked
          | .IncludeAct idx dest =>
            (prepRun fs fuel (.file dest parent visited defines)).bind
              fun (content, v', d') =>
                .ok (replace_range line1 idx line1.length content, v', d')
          | .DefineAct idx name dd =>
            .ok (replace_range line1 idx line1.length [], visited, tableInsert defines name dd)
          | .UndefAct idx name =>
            .ok (replace_range line1 idx line1.length [], visited, tableRemove defines name)
        afterDirective.bind fun (line2, v', d') =>
          (subst_fixpoint d' (fuel + 1) line2).bind fun line3 =>
            prepRun fs fuel (.lines parent rest' false (acc ++ line3 ++ ['\n']) v' d')

/-- `_preprocess` (lines 177-318). -/
def _preprocess (fuel : Nat) (filename : List Char) (basepath : FilePath')
    (fs : FileSys) (visited : List FilePath') (defines : MacroTable) :
    POut (List Char × List FilePath' × MacroTable) :=
  prepRun fs fuel (.file filename basepath visited defines)

/-- `preprocess` (lines 321-328): fresh empty visited set and macro table. -/
def preprocess (fuel : Nat) (filename : List Char) (basepath : FilePath')
    (fs : FileSys) : POut (List Char × List FilePath' × MacroTable) :=
  _preprocess fuel filename basepath fs [] []

/-- Modelled from the spec's words for comparison (spec §4.3 / claim C7):
identical to `substGo` except that after replacing an identifier mapped to a
`Value` definition, scanning resumes at the first position after the
inserted replacement text rather than at the code's `i + id_len`. -/
def substSpecGo (defines : MacroTable) (fuel : Nat) (result : List Char) (i : Nat) :
    POut (List Char) :=
  if _h : i < result.length then
    match findIdFrom (result.drop i) with
    | none => .ok result
    | some (s, len) =>
      match fuel with
      | 0 => .nofuel
      | fuel' + 1 =>
        let idStart := i + s
        let idEnd := idStart + len
        match tableGet defines (sliceList result idStart idEnd) with
        | some (.Value v) =>
          substSpecGo defines fuel' (replace_range result idStart idEnd v)
            (idStart + v.length)
        | some (.Macro params _body) =>
          match result.get? idEnd with
          | none => .panicked
          | some cNext =>
            if cNext != '(' then substSpecGo defines fuel' result (i + len)
            else
              match scanParensAux (result.drop idEnd) idEnd 0 [] with
              | (parenIdx, count, commas) =>
                if count != 0 then .err .MacroNoParenthesis
                else
                  let argValues := splitArgs result (idEnd + 1) commas parenIdx
                  if argValues.length != params.length then
                    .err (.MacroIncorrectArgs params.length argValues.length)
                  else
                    (buildArgDefines defines fuel' (params.zip argValues) []).bind
                      fun argDefines =>
                        (substGo argDefines fuel' _body 0).bind fun newBody =>
                          substSpecGo defines fuel'
                            (replace_range result idStart (parenIdx + 1) newBody) (i + len)
        | none => substSpecGo defines fuel' result (i + len)
  else .ok result

/-!  Concrete scenarios used by the theorems below. -/

/-- One file defining `ADD(a,b)` and invoking it plainly and nested. -/
def fsAdd : FileSys :=
  [(["m".data], ["#define ADD(a,b) (a+b)".data, "ADD(1,2)".data, "ADD(ADD(1,2),3)".data])]

/-- The macro table after `#define ADD(a,b) (a+b)`. -/
def tableAdd : MacroTable := [("ADD".data, .Macro ["a".data, "b".data] "(a+b)".data)]

/-- Two files that each `#include` the other. -/
def fsCycle : FileSys :=
  [(["A".data], ["#include \"B\"".data, "a1".data]),
   (["B".data], ["#include \"A\"".data, "b1".data])]

/-- A file whose macros substitute each other forever (`A` → `B` → `A` → …). -/
def fsLoop : FileSys :=
  [(["m".data], ["#define A B".data, "#define B A".data, "A".data])]

/-- The macro table `fsLoop` builds before its last line (insertion order:
`A` then `B`, most recent first). -/
def tableLoop : MacroTable :=
  [("B".data, .Value "A".data), ("A".data, .Value "B".data)]

/-- Table for the error-swallowing scenario: `BAD` takes two parameters, so
`BAD(1)` raises `MacroIncorrectArgs`; `F` takes one and ignores it. -/
def tableSwallow : MacroTable :=
  [("BAD".data, .Macro ["a".data, "b".data] "a".data),
   ("F".data, .Macro ["x".data] "ok".data)]

/-- Table for the scan-resume scenario: the value of `X` is longer than the
identifier, and its second character is itself a defined identifier. -/
def tableResume : MacroTable :=
  [("X".data, .Value "AB".data), ("B".data, .Value "C".data)]

/-- A file invoking a function-like macro as the last text of a line. -/
def fsEol : FileSys :=
  [(["m".data], ["#define BAD(x) y".data, "BAD".data])]

/-- A file whose `#include` argument is unquoted. -/
def fsIncludeBare : FileSys := [(["m".data], ["#include foo".data])]

/-- A file whose `#include` argument is a single double-quote character. -/
def fsIncludeQuote : FileSys := [(["m".data], ["#include \"".data])]

/-- Includes that define, use and undefine a macro across files. -/
def fsShare : FileSys :=
  [(["m".data],
    ["#include \"inc\"".data, "X".data, "#include \"inc2\"".data,
     "#undef X".data, "X".data]),
   (["inc".data], ["#define X 5".data]),
   (["inc2".data], ["X".data])]

/-- A file whose `#define` has fewer than three tokens. -/
def fsDefineShort : FileSys := [(["m".data], ["#define X".data])]

/-- A file whose `#undef` has a single token. -/
def fsUndefShort : FileSys := [(["m".data], ["#undef".data])]

/-!  Helper lemmas shared by the claim theorems. -/

/-- A found occurrence lies within the string. -/
lemma findSub_bound (pat : List Char) :
    ∀ (cs : List Char) (n : Nat), findSub pat cs = some n → n + pat.length ≤ cs.length := by
  intro cs
  induction cs with
  | nil =>
    intro n h
    by_cases hp : pat.isEmpty
    · have hpe : pat = [] := by simpa [List.isEmpty_iff] using hp
      simp [findSub, hp] at h
      simp [hpe, ← h]
    · simp [findSub, hp] at h
  | cons c rest ih =>
    intro n h
    rw [findSub] at h
    by_cases hp : pat.isPrefixOf (c :: rest)
    · rw [if_pos hp] at h
      obtain rfl : (0 : Nat) = n := by simpa using h
      simpa using (List.isPrefixOf_iff_prefix.mp hp).length_le
    · rw [if_neg hp] at h
      cases hmm : findSub pat rest with
      | none => rw [hmm] at h; simp at h
      | some m =>
        rw [hmm] at h
        simp at h
        have := ih m hmm
        simp [List.length_cons]
        omega

/-- A block-comment match spans at least four characters and lies within the
line. -/
lemma findBlockComment_bounds (cs : List Char) (s e : Nat)
    (h : findBlockComment cs = some (s, e)) : s + 4 ≤ e ∧ e ≤ cs.length := by
  rw [findBlockComment] at h
  cases h1 : findSub ['/', '*'] cs with
  | none => rw [h1] at h; simp at h
  | some s0 =>
    rw [h1] at h
    cases h2 : findSub ['*', '/'] (cs.drop (s0 + 2)) with
    | none => simp [h2] at h
    | some k =>
      simp [h2] at h
      obtain ⟨rfl, rfl⟩ := h
      have b1 := findSub_bound ['/', '*'] cs s0 h1
      have b2 := findSub_bound ['*', '/'] (cs.drop (s0 + 2)) k h2
      simp [List.length_drop] at b1 b2
      omega

/-- `cs.length + 1` rounds of fuel always reach the block-comment fixpoint:
each removal strictly shortens the line (by at least four characters), so the
result of `stripBlocks` contains no complete block comment — the fuelled
model computes exactly what the unbounded Rust loop does. -/
lemma stripBlocksFuel_fix :
    ∀ (fuel : Nat) (cs : List Char), cs.length < fuel →
      findBlockComment (stripBlocksFuel fuel cs) = none := by
  intro fuel
  induction fuel with
  | zero => intro cs h; omega
  | succ f ih =>
    intro cs h
    rw [stripBlocksFuel]
    cases hb : findBlockComment cs with
    | none => simpa using hb
    | some se =>
      obtain ⟨s, e⟩ := se
      obtain ⟨hse, hel⟩ := findBlockComment_bounds cs s e hb
      apply ih
      simp only [replace_range, List.length_append, List.length_take, List.length_drop,
        List.length_nil]
      omega

/-- The comment-free line `stripBlocks` produces has no complete block
comment left. -/
lemma stripBlocks_fix (cs : List Char) : findBlockComment (stripBlocks cs) = none :=
  stripBlocksFuel_fix (cs.length + 1) cs (by omega)


lemma substGo_loop_A (f : Nat) : substGo tableLoop (f + 1) "A".data 0 = .ok "B".data := by
  simp [substGo, findIdFrom, idMatchLen, isIdBegin, isIdStart, isIdCont, sliceList,
    tableGet, tableLoop, replace_range]

lemma substGo_loop_B (f : Nat) : substGo tableLoop (f + 1) "B".data 0 = .ok "A".data := by
  simp [substGo, findIdFrom, idMatchLen, isIdBegin, isIdStart, isIdCont, sliceList,
    tableGet, tableLoop, replace_range]

/-- Under `tableLoop`, the fixpoint rescan alternates `A` → `B` → `A` → …
forever: no amount of fuel reaches a result. -/
lemma fixpoint_loop (f : Nat) :
    subst_fixpoint tableLoop f "A".data = .nofuel ∧
    subst_fixpoint tableLoop f "B".data = .nofuel := by
  induction f with
  | zero => exact ⟨rfl, rfl⟩
  | succ n ih =>
    constructor
    · simp [subst_fixpoint, substitute_macros, substGo_loop_A n, POut.bind, ih.2]
    · simp [subst_fixpoint, substitute_macros, substGo_loop_B n, POut.bind, ih.1]

/-- C1: with `ADD(a,b)` defined as `(a+b)`, a line `ADD(1,2)` expands to
`(1+2)` and the nested `ADD(ADD(1,2),3)` to `((1+2)+3)` — both at the
fixpoint-substitution level against the table the `#define` builds, and
through a whole `preprocess` run on a file containing the definition and the
two invocations. -/
theorem c1_nested_macro_expansion :
    subst_fixpoint tableAdd 50 "ADD(1,2)".data = .ok "(1+2)".data ∧
    subst_fixpoint tableAdd 50 "ADD(ADD(1,2),3)".data = .ok "((1+2)+3)".data ∧
    preprocess 64 "m".data [] fsAdd =
      .ok ("\n(1+2)\n((1+2)+3)\n".data, [["m".data]], tableAdd) :=
  ⟨by decide, by decide, by decide⟩

/-- C2: a path already in the visited set makes `_preprocess` return the
empty string at once, leaving all state untouched (for any fuel, file system
and table); and on the two-file cycle `A` ↔ `B`, preprocessing `A` produces
`"\nb1\n\na1\n"`: it terminates, and `B`'s body `b1` appears exactly once, in
first-occurrence order (before `A`'s following line `a1`). -/
theorem c2_include_once :
    (∀ (fuel : Nat) (fname : List Char) (base : FilePath') (fs : FileSys)
        (visited : List FilePath') (defines : MacroTable),
        visited.contains (base ++ [fname]) = true →
        _preprocess (fuel + 1) fname base fs visited defines = .ok ([], visited, defines)) ∧
    preprocess 64 "A".data [] fsCycle =
      .ok ("\nb1\n\na1\n".data, [["B".data], ["A".data]], []) := by
  constructor
  · intro fuel fname base fs visited defines h
    simp only [_preprocess, prepRun]
    have hm : base ++ [fname] ∈ visited := by simpa using h
    simp [hm]
  · decide

/-- Witness for C2: entering a file whose path is already visited returns the
empty contribution with the state unchanged. -/
theorem c2_include_once_witness :
    _preprocess 1 "A".data [] [] [["A".data]] [] = .ok ([], [["A".data]], []) :=
  c2_include_once.1 0 "A".data [] [] [["A".data]] [] (by decide)

/-- C3: with `#define A B` and `#define B A`, the per-line fixpoint rescan of
the line `A` never reports "no change": for every fuel the fixpoint loop is
still running, and a whole `preprocess` run on the file never returns a
result or an error — the engine has no self-reference cycle detection. -/
theorem c3_self_reference_diverges :
    (∀ fuel : Nat, subst_fixpoint tableLoop fuel "A".data = .nofuel) ∧
    (∀ fuel : Nat, preprocess fuel "m".data [] fsLoop = .nofuel) := by
  refine ⟨fun f => (fixpoint_loop f).1, fun f => ?_⟩
  match f with
  | 0 => rfl
  | 1 => rfl
  | 2 => rfl
  | 3 => rfl
  | f + 4 =>
    have hstep : preprocess (f + 4) "m".data [] fsLoop =
        (subst_fixpoint tableLoop (f + 1) "A".data).bind
          (fun r => prepRun fsLoop f
            (.lines [] [] false (('\n' :: '\n' :: r) ++ ['\n']) [["m".data]] tableLoop)) := rfl
    rw [hstep, (fixpoint_loop (f + 1)).1]
    rfl

/-- C4 counterexample: on the line `x /* y // z`, processed while not inside
a block comment, the comment stripper removes from the `//` on and returns
`x /* y ` — in which an unmatched `/*` remains — yet reports `false` (not in
block comment), because the early return on finding `//` (line 54) skips the
hanging-`/*` check; the claim requires `true` here. -/
theorem c4_flag_counterexample :
    remove_comments "x /* y // z".data false = ("x /* y ".data, false) ∧
    hasSub "/*".data "x /* y ".data = true :=
  ⟨by decide, by decide⟩

/-- C4 amended: for a line processed while not inside a block comment, if a
`//` survives block-span removal the stripper always reports "not in block
comment" — even when an unmatched `/*` remains; only when no `//` is present
does the reported state equal the presence of an unmatched `/*`. -/
theorem c4_comment_flag_amended (cs : List Char) :
    (hasSub "//".data (stripBlocks cs) = true → (remove_comments cs false).2 = false) ∧
    (hasSub "//".data (stripBlocks cs) = false →
      (remove_comments cs false).2 = hasSub "/*".data (stripBlocks cs)) := by
  constructor
  · intro h
    rcases hf : findSub "//".data (stripBlocks cs) with _ | idx
    · rw [hasSub, hf] at h; simp at h
    · simp [remove_comments, hf]
  · intro h
    rcases hf : findSub "//".data (stripBlocks cs) with _ | idx
    · simp [remove_comments, hf]
    · rw [hasSub, hf] at h; simp at h

/-- Witness for the amended C4, at a line with both markers and at a line
with only an unmatched `/*`. -/
theorem c4_comment_flag_witness :
    (remove_comments "x /* y // z".data false).2 = false ∧
    (remove_comments "a /* b".data false).2 = hasSub "/*".data (stripBlocks "a /* b".data) :=
  ⟨(c4_comment_flag_amended "x /* y // z".data).1 (by decide),
   (c4_comment_flag_amended "a /* b".data).2 (by decide)⟩

/-- C5: an error from pre-expanding a macro argument is swallowed and the raw
argument text bound to the parameter instead (for any table, fuel, argument
and error); concretely, `BAD(1)` alone raises `MacroIncorrectArgs(2, 1)`,
yet `F(BAD(1))` — whose argument pre-expansion raises exactly that error —
expands without error. -/
theorem c5_arg_error_swallowed :
    (∀ (defines : MacroTable) (fuel : Nat) (name value : List Char)
        (rest : List (List Char × List Char)) (acc : MacroTable) (e : PreprocessorError),
        substGo defines fuel value 0 = .err e →
        buildArgDefines defines (fuel + 1) ((name, value) :: rest) acc =
          buildArgDefines defines fuel rest (tableInsert acc name (.Value value))) ∧
    substitute_macros 50 "BAD(1)".data tableSwallow = .err (.MacroIncorrectArgs 2 1) ∧
    subst_fixpoint tableSwallow 50 "F(BAD(1))".data = .ok "ok".data := by
  refine ⟨?_, by decide, by decide⟩
  intro defines fuel name value rest acc e h
  simp [buildArgDefines, h]

/-- Witness for C5: the argument `BAD(1)` fails to pre-expand under
`tableSwallow`, and its raw text is bound to the parameter `a`. -/
theorem c5_arg_error_swallowed_witness :
    buildArgDefines tableSwallow 50 [("a".data, "BAD(1)".data)] [] =
      buildArgDefines tableSwallow 49 [] (tableInsert [] "a".data (.Value "BAD(1)".data)) :=
  c5_arg_error_swallowed.1 tableSwallow 49 "a".data "BAD(1)".data [] []
    (.MacroIncorrectArgs 2 1) (by decide)

/-- C6 counterexample: the line `#include "` splits into exactly two tokens
whose second is the single character `"` — not wrapped in a *pair* of quotes
— yet preprocessing does not fail with `IncludeIncorrectArgs`: the
`starts_with`/`ends_with` test passes degenerately and the byte slice
`[1..0]` of line 252 panics. -/
theorem c6_lone_quote_counterexample :
    parse_directive "#include \"".data = .PanicAct ∧
    preprocess 8 "m".data [] fsIncludeQuote = .panicked ∧
    (POut.panicked ≠
      (.err .IncludeIncorrectArgs : POut (List Char × List FilePath' × MacroTable))) :=
  ⟨by decide, by decide, by decide⟩

/-- C6 amended: a `#include` directive fails with `IncludeIncorrectArgs`
unless it splits into exactly two space-separated tokens whose second starts
and ends with `"`, or starts with `<` and ends with `>`; a second token that
is the single character `"` passes that test and causes an out-of-range
slice panic instead of an error.  `#include foo` fails with
`IncludeIncorrectArgs` through a whole run. -/
theorem c6_include_args_amended :
    (∀ (l : List Char) (idx : Nat) (args : List (List Char)),
        l.findIdx? (fun c => c == '#') = some idx →
        directive_tokens (l.drop idx) = args →
        args.head? = some "#include".data →
        (args.length ≠ 2 → parse_directive l = .ErrAct .IncludeIncorrectArgs) ∧
        (∀ dest, args.length = 2 → args.get? 1 = some dest →
          include_path_wrapped dest = false →
          parse_directive l = .ErrAct .IncludeIncorrectArgs) ∧
        (∀ dest, args.length = 2 → args.get? 1 = some dest →
          include_path_wrapped dest = true → dest.length = 1 →
          parse_directive l = .PanicAct)) ∧
    preprocess 8 "m".data [] fsIncludeBare = .err .IncludeIncorrectArgs := by
  refine ⟨?_, by decide⟩
  intro l idx args h1 h2 ha
  match args, ha with
  | a0 :: rest, ha =>
    have ha0 : a0 = "#include".data := by simpa using ha
    subst ha0
    refine ⟨?_, ?_, ?_⟩
    · intro hlen
      simp only [parse_directive, h1, h2]
      simp [bne_iff_ne]
      intro hr
      exact absurd hr (by simpa using hlen)
    · intro dest hlen hget hw
      have hr1 : rest.length = 1 := by simpa using hlen
      obtain ⟨d, rfl⟩ := List.length_eq_one.mp hr1
      have hd : d = dest := by simpa using hget
      subst hd
      simp [parse_directive, h1, h2, hw]
    · intro dest hlen hget hw hd
      have hr1 : rest.length = 1 := by simpa using hlen
      obtain ⟨d, rfl⟩ := List.length_eq_one.mp hr1
      have hdd : d = dest := by simpa using hget
      subst hdd
      simp [parse_directive, h1, h2, hw, hd]

/-- Witness for the amended C6: a three-token include, an unquoted include,
and the lone-quote include. -/
theorem c6_include_args_witness :
    parse_directive "#include a b".data = .ErrAct .IncludeIncorrectArgs ∧
    parse_directive "#include foo".data = .ErrAct .IncludeIncorrectArgs ∧
    parse_directive "#include \"".data = .PanicAct :=
  ⟨((c6_include_args_amended.1 "#include a b".data 0
      ["#include".data, "a".data, "b".data] (by decide) (by decide) (by decide)).1
      (by decide)),
   ((c6_include_args_amended.1 "#include foo".data 0
      ["#include".data, "foo".data] (by decide) (by decide) (by decide)).2.1
      "foo".data (by decide) (by decide) (by decide)),
   ((c6_include_args_amended.1 "#include \"".data 0
      ["#include".data, "\"".data] (by decide) (by decide) (by decide)).2.2
      "\"".data (by decide) (by decide) (by decide) (by decide))⟩

/-- C7 counterexample: with `X` defined as the value `AB` and `B` as the
value `C`, one substitution pass over the line `X` produces `AC` — the scan
resumed *inside* the inserted replacement (one identifier-length past the
match) and substituted its lone `B` — whereas the claim's resume-after-the-
replacement scan (`substSpecGo`) produces `AB`. -/
theorem c7_resume_counterexample :
    substGo tableResume 50 "X".data 0 = .ok "AC".data ∧
    substSpecGo tableResume 50 "X".data 0 = .ok "AB".data ∧
    "AC".data ≠ "AB".data :=
  ⟨by decide, by decide, by decide⟩

/-- C7 amended: when the scan at position `i` finds an identifier of length
`len` at offset `s` that maps to a `Value` definition, exactly the
identifier's span is replaced by the value text, and scanning resumes at
`i + len` — the identifier's length past the previous scan position — which
lies inside the inserted replacement whenever the value is longer than the
identifier and the match starts at the scan position. -/
theorem c7_value_resume_amended
    (defines : MacroTable) (fuel : Nat) (result : List Char) (i s len : Nat)
    (v : List Char)
    (h1 : i < result.length)
    (h2 : findIdFrom (result.drop i) = some (s, len))
    (h3 : tableGet defines (sliceList result (i + s) (i + s + len)) = some (.Value v)) :
    substGo defines (fuel + 1) result i =
      substGo defines fuel (replace_range result (i + s) (i + s + len) v) (i + len) := by
  rw [substGo]
  simp [h1, h2, h3]

/-- Witness for the amended C7 at the `X` → `AB` replacement. -/
theorem c7_value_resume_witness :
    substGo tableResume 50 "X".data 0 =
      substGo tableResume 49 (replace_range "X".data 0 1 "AB".data) 1 :=
  c7_value_resume_amended tableResume 49 "X".data 0 0 1 "AB".data
    (by decide) (by decide) (by decide)

/-- C8: the macro table is threaded unchanged through every line that
contains no directive (for any file system, fuel and state: processing such
a line only substitutes macros in it and passes the same visited set and
table to the remaining lines); and in a run where an included file defines
`X`, the definition is substitutable in the includer's later lines and in a
later-included file, until `#undef X` removes it, after which `X` passes
through unexpanded. -/
theorem c8_table_threading :
    (∀ (fs : FileSys) (parent : FilePath') (fuel : Nat) (l : List Char)
        (rest : List (List Char)) (acc : List Char) (v : List FilePath') (d : MacroTable),
        (l.getLast? == some '\\') = false →
        remove_comments l false = (l, false) →
        parse_directive l = .NoDirective →
        prepRun fs (fuel + 1) (.lines parent (l :: rest) false acc v d) =
          (subst_fixpoint d (fuel + 1) l).bind
            (fun r => prepRun fs fuel (.lines parent rest false (acc ++ r ++ ['\n']) v d))) ∧
    preprocess 64 "m".data [] fsShare =
      .ok ("\n\n5\n5\n\n\nX\n".data, [["inc2".data], ["inc".data], ["m".data]], []) := by
  refine ⟨?_, by decide⟩
  intro fs parent fuel l rest acc v d h1 h2 h3
  rw [prepRun, join_continuations.eq_def]
  simp [h1, h2, h3, POut.bind]

/-- Witness for C8's general part at a directive-free line. -/
theorem c8_table_threading_witness :
    prepRun [] 1 (.lines [] ["X".data] false [] [] []) =
      (subst_fixpoint [] 1 "X".data).bind
        (fun r => prepRun [] 0 (.lines [] [] false ([] ++ r ++ ['\n']) [] [])) :=
  c8_table_threading.1 [] [] 0 "X".data [] [] [] [] (by decide) (by decide) (by decide)

/-- C9: an identifier bound to a function-like `Macro` definition standing as
the last text of a line makes the lookahead `result[id_end..id_end+1]` index
past the end of the line: the substitution panics (for any parameter list,
body and fuel), and a whole run on a file ending a line with `BAD` panics
rather than erroring or skipping. -/
theorem c9_eol_macro_panics :
    (∀ (params : List (List Char)) (body : List Char) (fuel : Nat),
      substGo [("BAD".data, .Macro params body)] (fuel + 1) "BAD".data 0 = .panicked) ∧
    preprocess 64 "m".data [] fsEol = .panicked := by
  constructor
  · intro params body fuel
    simp [substGo, findIdFrom, idMatchLen, isIdBegin, isIdStart, isIdCont, sliceList, tableGet]
  · decide

/-- C10: a `#define` directive with fewer than three tokens and a `#undef`
directive whose token count is not two both fail with
`IncludeIncorrectArgs`, the same error kind as a malformed `#include` (there
is no define- or undef-specific kind); whole runs on `#define X` and on a
bare `#undef` both return that error. -/
theorem c10_define_undef_errors :
    (∀ (l : List Char) (idx : Nat) (args : List (List Char)),
        l.findIdx? (fun c => c == '#') = some idx →
        directive_tokens (l.drop idx) = args →
        (args.head? = some "#define".data → args.length < 3 →
          parse_directive l = .ErrAct .IncludeIncorrectArgs) ∧
        (args.head? = some "#undef".data → args.length ≠ 2 →
          parse_directive l = .ErrAct .IncludeIncorrectArgs)) ∧
    preprocess 8 "m".data [] fsDefineShort = .err .IncludeIncorrectArgs ∧
    preprocess 8 "m".data [] fsUndefShort = .err .IncludeIncorrectArgs := by
  refine ⟨?_, by decide, by decide⟩
  intro l idx args h1 h2
  constructor
  · intro ha hlen
    match args, ha with
    | a0 :: rest, ha =>
      have ha0 : a0 = "#define".data := by simpa using ha
      subst ha0
      simp only [parse_directive, h1, h2]
      simp
      intro hr
      exfalso
      have h3 : rest.length + 1 < 3 := by simpa using hlen
      omega
  · intro ha hlen
    match args, ha with
    | a0 :: rest, ha =>
      have ha0 : a0 = "#undef".data := by simpa using ha
      subst ha0
      simp only [parse_directive, h1, h2]
      simp [bne_iff_ne]
      intro hr
      exact absurd hr (by simpa using hlen)

/-- Witness for C10 at `#define X` and `#undef`. -/
theorem c10_define_undef_witness :
    parse_directive "#define X".data = .ErrAct .IncludeIncorrectArgs ∧
    parse_directive "#undef".data = .ErrAct .IncludeIncorrectArgs :=
  ⟨(c10_define_undef_errors.1 "#define X".data 0 ["#define".data, "X".data]
      (by decide) (by decide)).1 (by decide) (by decide),
   (c10_define_undef_errors.1 "#undef".data 0 ["#undef".data]
      (by decide) (by decide)).2 (by decide) (by decide)⟩

end Wgsl
